import Mathlib

/-!
Shallow embedding of `src/native/src/boot/payload.rs` (Magisk's OTA payload
boot-image extractor), together with theorems checking the specification's
claims about it.

Bytes are modelled as `Nat`; u64/u32 arithmetic that can wrap in the source is
modelled explicitly with `% 2^64`.  The input stream is a byte list with a
cursor; every input access records the position reached in a trace, so that
forward-only consumption is a provable statement.  The output file is a seek
position plus the ordered list of writes performed.
-/

namespace Payload

abbrev Byte := Nat

/-- The modulus 2^64 of Rust u64 arithmetic. -/
def U64 : Nat := 2 ^ 64

/-- Wrapping u64 subtraction, as performed by `data_offset - curr_data_offset`
in the source (no overflow check in release builds). -/
def wrapSub (a b : Nat) : Nat := (a % U64 + U64 - b % U64) % U64

/-- Wrapping u64 addition, as performed by `data_offset + data_len as u64`. -/
def wrapAdd (a b : Nat) : Nat := (a + b) % U64

/-- Wrapping u64 multiplication, as performed by `start_block * block_size`. -/
def wrapMul (a b : Nat) : Nat := (a * b) % U64

/-- Model of `update_metadata::Extent`: a (start_block, num_blocks) pair; fields are
optional in the protobuf encoding. -/
structure Extent where
  start_block : Option Nat
  num_blocks : Option Nat
deriving DecidableEq

/-- The operation type tag `mod_InstallOperation::Type`.  The four variants the
engine handles are named; every other tag is `other`. -/
inductive OpType where
  | REPLACE
  | ZERO
  | REPLACE_BZ
  | REPLACE_XZ
  | other (tag : Nat)
deriving DecidableEq

/-- Model of `update_metadata::InstallOperation`, restricted to the fields the engine
reads: `type_pb`, `data_length`, `data_offset`, `dst_extents`. -/
structure InstallOperation where
  type_pb : OpType
  data_length : Option Nat
  data_offset : Option Nat
  dst_extents : List Extent
deriving DecidableEq

/-- Model of `update_metadata::PartitionUpdate`, restricted to the fields the engine
reads. -/
structure PartitionUpdate where
  partition_name : String
  operations : List InstallOperation
deriving DecidableEq

/-- Model of `update_metadata::DeltaArchiveManifest`, restricted to the fields the
engine reads; `minor_version` and `block_size` stand for the values returned
by `get_minor_version()` and `get_block_size()` (defaults already applied). -/
structure DeltaArchiveManifest where
  minor_version : Nat
  block_size : Nat
  partitions : List PartitionUpdate
deriving DecidableEq

/-- The distinct failure classes of `do_extract_boot_from_payload`:
`ioError` for read/skip failures propagated with `?`, `decodeError` for
`DeltaArchiveManifest::from_reader` failures, `badPayload` for the
`bad_payload!` macro, `notFound` for the plain `anyhow!` partition lookup
failures. -/
inductive Err where
  | ioError
  | decodeError
  | badPayload (msg : String)
  | notFound (msg : String)
deriving DecidableEq

/-- Whether an error is a structural `bad_payload!` error. -/
def Err.isBadPayload : Err → Bool
  | .badPayload _ => true
  | _ => false

/-- External collaborators of the engine: the protobuf manifest decoder and
the `ffi::decompress` routine (bzip2/xz auto-detected), neither of which is
part of this source file.  They are parameters of the embedding. -/
structure Env where
  decodeManifest : List Byte → Option DeltaArchiveManifest
  decompress : List Byte → Option (List Byte)

/-- Input-stream state: absolute cursor plus the trace of positions reached
after each successful input access (the initial position included). -/
structure InSt where
  pos : Nat
  trace : List Nat
deriving DecidableEq

/-- Model of `read_exact` on the input stream: succeeds only when `n` bytes are
available at `pos`, returning them and the advanced position. -/
def readExact (input : List Byte) (pos n : Nat) : Option (List Byte × Nat) :=
  if pos + n ≤ input.length then some ((input.drop pos).take n, pos + n) else none

/-- The `read_exact` access lifted to the traced input state. -/
def readIn (input : List Byte) (n : Nat) (s : InSt) : Option (List Byte) × InSt :=
  match readExact input s.pos n with
  | none => (none, s)
  | some (bs, p) => (some bs, ⟨p, s.trace ++ [p]⟩)

/-- Modelled from the spec: `base::ReadSeekExt::skip` is not part of this
source file; per the spec it advances the input stream forward by `n` bytes,
discarding them, and fails past the end of the input. -/
def skipIn (input : List Byte) (n : Nat) (s : InSt) : Bool × InSt :=
  if s.pos + n ≤ input.length then (true, ⟨s.pos + n, s.trace ++ [s.pos + n]⟩)
  else (false, s)

/-- Big-endian interpretation of a byte list, as done by
`read_u64::<BigEndian>` / `read_u32::<BigEndian>`. -/
def beNat (bs : List Byte) : Nat := bs.foldl (fun acc b => acc * 256 + b) 0

/-- The 4 magic bytes "CrAU" (`PAYLOAD_MAGIC`). -/
def payloadMagic : List Byte := [0x43, 0x72, 0x41, 0x55]

/-- The validated container header: manifest length and manifest signature
length. -/
structure Header where
  manifest_len : Nat
  manifest_sig_len : Nat
deriving DecidableEq

/-- Lines 39-59 of `payload.rs`: read and validate magic, version, manifest
length and manifest signature length, in that order, each failure immediate. -/
def parseHeader (input : List Byte) (s : InSt) : Except Err Header × InSt :=
  match readIn input 4 s with
  | (none, s) => (.error .ioError, s)
  | (some magic, s) =>
    if magic ≠ payloadMagic then (.error (.badPayload ("invalid magic")), s)
    else
      match readIn input 8 s with
      | (none, s) => (.error .ioError, s)
      | (some vb, s) =>
        let version := beNat vb
        if version ≠ 2 then
          (.error (.badPayload ("unsupported version: " ++ toString version)), s)
        else
          match readIn input 8 s with
          | (none, s) => (.error .ioError, s)
          | (some mb, s) =>
            let manifest_len := beNat mb
            if manifest_len = 0 then
              (.error (.badPayload ("manifest length is zero")), s)
            else
              match readIn input 4 s with
              | (none, s) => (.error .ioError, s)
              | (some sb, s) =>
                let sig_len := beNat sb
                if sig_len = 0 then
                  (.error (.badPayload ("manifest signature length is zero")), s)
                else (.ok ⟨manifest_len, sig_len⟩, s)

/-- Lines 78-98 of `payload.rs`: partition selection.  With no name, the first
partition named "init_boot", else the first named "boot", else failure; with a
name, the first exact match, else failure. -/
def findPartitionUpdate (m : DeltaArchiveManifest) (pname : Option String) :
    Except Err PartitionUpdate :=
  match pname with
  | none =>
    match m.partitions.find? (fun p => p.partition_name == "init_boot") with
    | some p => .ok p
    | none =>
      match m.partitions.find? (fun p => p.partition_name == "boot") with
      | some p => .ok p
      | none => .error (.notFound ("boot partition not found"))
  | some name =>
    match m.partitions.find? (fun p => p.partition_name == name) with
    | some p => .ok p
    | none => .error (.notFound ("partition \x27" ++ name ++ "\x27 not found"))

/-- Output-file state: current seek position and the ordered list of
(offset, bytes) writes performed so far. -/
structure OutFile where
  pos : Nat
  writes : List (Nat × List Byte)
deriving DecidableEq

/-- Model of `out_file.seek(SeekFrom::Start(off))`. -/
def OutFile.seek (f : OutFile) (off : Nat) : OutFile := { f with pos := off }

/-- Model of `out_file.write_all(data)` (and `write_zeros`, with a zero buffer):
records the write at the current position and advances it. -/
def OutFile.write (f : OutFile) (data : List Byte) : OutFile :=
  { pos := f.pos + data.length, writes := f.writes ++ [(f.pos, data)] }

/-- The byte a single recorded write puts at absolute offset `i`, if `i` lies
inside it. -/
def coverByte (w : Nat × List Byte) (i : Nat) : Option Byte :=
  if w.1 ≤ i ∧ i < w.1 + w.2.length then some (w.2.getD (i - w.1) 0) else none

/-- The byte of the reconstructed image at offset `i`: later writes override
earlier ones; unwritten offsets read as 0 (freshly created sparse file). -/
def OutFile.readByte (f : OutFile) (i : Nat) : Byte :=
  f.writes.foldl (fun acc w => (coverByte w i).getD acc) 0

/-- Lines 154-163 of `payload.rs`: the ZERO arm.  For every destination
extent, require `start_block` and `num_blocks`, seek to
`start_block * block_size`, and `write_zeros(num_blocks as usize)` —
note the source writes `num_blocks` zero bytes, without multiplying by
`block_size`. -/
def zeroExtents (block_size : Nat) (exts : List Extent) (out : OutFile) :
    OutFile × Option Err :=
  match exts with
  | [] => (out, none)
  | ext :: rest =>
    match ext.start_block with
    | none => (out, some (.badPayload ("start block not found")))
    | some sb =>
      match ext.num_blocks with
      | none => (out, some (.badPayload ("num blocks not found")))
      | some nb =>
        zeroExtents block_size rest
          ((out.seek (wrapMul sb block_size)).write (List.replicate nb 0))

/-- State of the replay loop: traced input cursor, `curr_data_offset`, and
the output file. -/
structure LoopSt where
  ins : InSt
  curr : Nat
  out : OutFile
deriving DecidableEq

/-- Lines 121-172 of `payload.rs`: the body of the per-operation loop.
Require `data_length` and `data_offset`; skip `data_offset - curr` (wrapping
u64 subtraction) and read `data_length` bytes; require the first destination
extent and its `start_block`; then dispatch on the operation type. -/
def stepOp (env : Env) (block_size : Nat) (input : List Byte)
    (op : InstallOperation) (st : LoopSt) : LoopSt × Option Err :=
  match op.data_length with
  | none => (st, some (.badPayload ("data length not found")))
  | some data_len =>
    match op.data_offset with
    | none => (st, some (.badPayload ("data offset not found")))
    | some data_offset =>
      let skip := wrapSub data_offset st.curr
      match skipIn input skip st.ins with
      | (false, ins1) => ({ st with ins := ins1 }, some .ioError)
      | (true, ins1) =>
        match readIn input data_len ins1 with
        | (none, ins2) => ({ st with ins := ins2 }, some .ioError)
        | (some data, ins2) =>
          let st1 : LoopSt :=
            { ins := ins2, curr := wrapAdd data_offset data_len, out := st.out }
          match op.dst_extents.head? with
          | none => (st1, some (.badPayload ("dst extents not found")))
          | some ext0 =>
            match ext0.start_block with
            | none => (st1, some (.badPayload ("start block not found")))
            | some sb =>
              let out_offset := wrapMul sb block_size
              match op.type_pb with
              | .REPLACE =>
                ({ st1 with out := (st1.out.seek out_offset).write data }, none)
              | .ZERO =>
                match zeroExtents block_size op.dst_extents st1.out with
                | (out, oe) => ({ st1 with out := out }, oe)
              | .REPLACE_BZ =>
                let out := st1.out.seek out_offset
                match env.decompress data with
                | none => ({ st1 with out := out }, some (.badPayload ("decompression failed")))
                | some dec => ({ st1 with out := out.write dec }, none)
              | .REPLACE_XZ =>
                let out := st1.out.seek out_offset
                match env.decompress data with
                | none => ({ st1 with out := out }, some (.badPayload ("decompression failed")))
                | some dec => ({ st1 with out := out.write dec }, none)
              | .other _ => (st1, some (.badPayload ("unsupported operation type")))

/-- The replay loop over the (sorted) operation list; stops at the first
failing operation. -/
def runOps (env : Env) (block_size : Nat) (input : List Byte)
    (ops : List InstallOperation) (st : LoopSt) : LoopSt × Option Err :=
  match ops with
  | [] => (st, none)
  | op :: rest =>
    match stepOp env block_size input op st with
    | (st1, none) => runOps env block_size input rest st1
    | (st1, some e) => (st1, some e)

/-- The sort key `e.data_offset.unwrap_or(0)` (line 118). -/
def opKey (op : InstallOperation) : Nat := op.data_offset.getD 0

/-- The sort order of line 118: ascending `data_offset.unwrap_or(0)`. -/
def opLE (a b : InstallOperation) : Prop := opKey a ≤ opKey b

instance : DecidableRel opLE := fun a b => Nat.decLe (opKey a) (opKey b)

instance : IsTotal InstallOperation opLE := ⟨fun a b => Nat.le_total (opKey a) (opKey b)⟩

instance : IsTrans InstallOperation opLE := ⟨fun _ _ _ => Nat.le_trans⟩

/-- Line 118: stable sort of the cloned operation list by ascending
`data_offset.unwrap_or(0)`.  `sort_by_key` is a stable sort, and a stable
sort's output is uniquely determined by the key order and the input order, so
any stable sort models it; insertion sort is used because it is stable and
structurally recursive. -/
def sortOps (ops : List InstallOperation) : List InstallOperation :=
  List.insertionSort opLE ops

/-- The overall result of one extraction call: the error if any, whether the
output file had been created, the output file state, and the trace of input
positions. -/
structure Run where
  err : Option Err
  outCreated : Bool
  out : OutFile
  trace : List Nat
deriving DecidableEq

/-- The initial input state: cursor 0. -/
def s0 : InSt := ⟨0, [0]⟩

/-- Model of `do_extract_boot_from_payload` (lines 28-176): header validation, manifest
read and decode, minor-version check, partition selection, output-file
creation, signature skip, then the sorted replay loop. -/
def doExtract (env : Env) (input : List Byte) (pname : Option String) : Run :=
  match parseHeader input s0 with
  | (.error e, s) => ⟨some e, false, ⟨0, []⟩, s.trace⟩
  | (.ok h, s) =>
    match readIn input h.manifest_len s with
    | (none, s) => ⟨some .ioError, false, ⟨0, []⟩, s.trace⟩
    | (some mbytes, s) =>
      match env.decodeManifest mbytes with
      | none => ⟨some .decodeError, false, ⟨0, []⟩, s.trace⟩
      | some manifest =>
        if manifest.minor_version ≠ 0 then
          ⟨some (.badPayload ("delta payloads are not supported, please use a full payload file")),
            false, ⟨0, []⟩, s.trace⟩
        else
          match findPartitionUpdate manifest pname with
          | .error e => ⟨some e, false, ⟨0, []⟩, s.trace⟩
          | .ok part =>
            -- the output file is created here (line 109)
            match skipIn input h.manifest_sig_len s with
            | (false, s) => ⟨some .ioError, true, ⟨0, []⟩, s.trace⟩
            | (true, s) =>
              match runOps env manifest.block_size input (sortOps part.operations)
                  ⟨s, 0, ⟨0, []⟩⟩ with
              | (st, oe) => ⟨oe, true, st.out, st.ins.trace⟩

/-- A concrete manifest containing both "boot" and "init_boot". -/
def mC3 : DeltaArchiveManifest :=
  ⟨0, 4096, [⟨"boot", []⟩, ⟨"init_boot", []⟩, ⟨"vendor", []⟩]⟩

/-- A minimal valid header: magic, version 2, manifest length 1, signature
length 1. -/
def hdrC5 : List Byte :=
  [0x43, 0x72, 0x41, 0x55, 0, 0, 0, 0, 0, 0, 0, 2,
   0, 0, 0, 0, 0, 0, 0, 1, 0, 0, 0, 1]

/-- An environment whose external calls are never needed. -/
def envNone : Env := ⟨fun _ => none, fun _ => none⟩

/-- The initial loop state: input cursor 0, `curr_data_offset` 0, fresh
output file. -/
def stInit : LoopSt := ⟨⟨0, [0]⟩, 0, ⟨0, []⟩⟩

/-- A ZERO operation with two destination extents and one byte of (unused)
source data. -/
def zopC2 : InstallOperation :=
  ⟨.ZERO, some 1, some 0, [⟨some 0, some 1⟩, ⟨some 2, some 3⟩]⟩

/-- Two REPLACE operations whose data regions overlap: [0, 10) and [5, 10). -/
def opC4a : InstallOperation := ⟨.REPLACE, some 10, some 0, [⟨some 0, none⟩]⟩

def opC4b : InstallOperation := ⟨.REPLACE, some 5, some 5, [⟨some 20, none⟩]⟩

/-- A REPLACE operation whose only destination extent has no `num_blocks`. -/
def opC7 : InstallOperation := ⟨.REPLACE, some 1, some 0, [⟨some 0, none⟩]⟩

/-- A decoder returning a full-payload manifest whose "boot" partition holds
only `opC7`. -/
def envC7 : Env := ⟨fun _ => some ⟨0, 4096, [⟨"boot", [opC7]⟩]⟩, fun _ => none⟩

/-- Header (manifest length 1, signature length 1), one manifest byte, one
signature byte, one data byte. -/
def inC7 : List Byte := hdrC5 ++ [9] ++ [8] ++ [7]

/-- A decoder that always yields a manifest with minor version 1. -/
def envC6 : Env := ⟨fun _ => some ⟨1, 4096, []⟩, fun _ => none⟩

def inC6 : List Byte := hdrC5 ++ [9]

/-- The input-state invariant: the recorded positions never decrease, and the
last recorded position is the current cursor. -/
def InSt.mono (s : InSt) : Prop :=
  s.trace.Chain' (fun a b => a ≤ b) ∧ s.trace.getLast? = some s.pos

/-- The operation's declared data length (present under well-formedness). -/
def opLen (op : InstallOperation) : Nat := op.data_length.getD 0

/-- The operation's first destination extent's start block (present under
well-formedness). -/
def opSB (op : InstallOperation) : Nat :=
  ((op.dst_extents.headD ⟨none, none⟩).start_block).getD 0

/-- The raw source bytes of an operation inside the data region beginning at
`dataStart`. -/
def opSrc (input : List Byte) (dataStart : Nat) (op : InstallOperation) : List Byte :=
  (input.drop (dataStart + opKey op)).take (opLen op)

/-- The bytes an operation must place at its destination: the raw source
bytes for REPLACE, their decompression for REPLACE_BZ / REPLACE_XZ. -/
def opOut (env : Env) (input : List Byte) (dataStart : Nat)
    (op : InstallOperation) : List Byte :=
  match op.type_pb with
  | .REPLACE => opSrc input dataStart op
  | .REPLACE_BZ => (env.decompress (opSrc input dataStart op)).getD []
  | .REPLACE_XZ => (env.decompress (opSrc input dataStart op)).getD []
  | _ => []

/-- A well-formed REPLACE-family operation: data length and offset present,
nonempty data, a first destination extent with a start block, and a type
among REPLACE / REPLACE_BZ / REPLACE_XZ (for the compressed variants the
decompression of the source bytes must succeed). -/
def WFReplaceOp (env : Env) (input : List Byte) (dataStart : Nat)
    (op : InstallOperation) : Prop :=
  op.data_length = some (opLen op) ∧
  op.data_offset = some (opKey op) ∧
  0 < opLen op ∧
  (∃ e0 rest, op.dst_extents = e0 :: rest ∧ e0.start_block = some (opSB op)) ∧
  (op.type_pb = .REPLACE ∨
    ((op.type_pb = .REPLACE_BZ ∨ op.type_pb = .REPLACE_XZ) ∧
      (env.decompress (opSrc input dataStart op)).isSome = true))

/-- A decompressor that doubles its input, for the witness. -/
def envW : Env := ⟨fun _ => none, fun d => some (d ++ d)⟩

def opW1 : InstallOperation := ⟨.REPLACE, some 1, some 0, [⟨some 0, none⟩]⟩

def opW2 : InstallOperation := ⟨.REPLACE_XZ, some 1, some 1, [⟨some 1, none⟩]⟩

/-! ## Partition selection (C3) -/

theorem find?_name_exists {l : List PartitionUpdate} {s : String}
    (h : ∃ p ∈ l, p.partition_name = s) :
    ∃ p, l.find? (fun q => q.partition_name == s) = some p ∧ p ∈ l ∧
      p.partition_name = s := by
  cases hf : l.find? (fun q => q.partition_name == s) with
  | none =>
    rw [List.find?_eq_none] at hf
    obtain ⟨p, hp, hn⟩ := h
    exact absurd (by simpa using hn) (by simpa using hf p hp)
  | some p =>
    exact ⟨p, rfl, List.mem_of_find?_eq_some hf, by simpa using List.find?_some hf⟩

theorem find?_name_none {l : List PartitionUpdate} {s : String}
    (h : ∀ p ∈ l, p.partition_name ≠ s) :
    l.find? (fun q => q.partition_name == s) = none := by
  rw [List.find?_eq_none]
  intro p hp
  simpa using h p hp

/-- Claim C3: with no partition name the engine selects a partition named
"init_boot" if one exists anywhere in the manifest's partition list, else one
named "boot", else fails with a not-found error; with a name, it selects a
partition whose name is exactly equal to it, and fails if none matches. -/
theorem findPartitionUpdate_selection (m : DeltaArchiveManifest) :
    ((∃ p ∈ m.partitions, p.partition_name = "init_boot") →
       ∃ p, findPartitionUpdate m none = .ok p ∧ p ∈ m.partitions ∧
         p.partition_name = "init_boot") ∧
    ((∀ p ∈ m.partitions, p.partition_name ≠ "init_boot") →
       (∃ p ∈ m.partitions, p.partition_name = "boot") →
       ∃ p, findPartitionUpdate m none = .ok p ∧ p ∈ m.partitions ∧
         p.partition_name = "boot") ∧
    ((∀ p ∈ m.partitions, p.partition_name ≠ "init_boot" ∧ p.partition_name ≠ "boot") →
       findPartitionUpdate m none = .error (.notFound ("boot partition not found"))) ∧
    (∀ name : String,
      ((∃ p ∈ m.partitions, p.partition_name = name) →
        ∃ p, findPartitionUpdate m (some name) = .ok p ∧ p ∈ m.partitions ∧
          p.partition_name = name) ∧
      ((∀ p ∈ m.partitions, p.partition_name ≠ name) →
        findPartitionUpdate m (some name) =
          .error (.notFound ("partition \x27" ++ name ++ "\x27 not found")))) := by
  refine ⟨?_, ?_, ?_, ?_⟩
  · intro h
    obtain ⟨p, hf, hp, hn⟩ := find?_name_exists h
    exact ⟨p, by simp [findPartitionUpdate, hf], hp, hn⟩
  · intro hno h
    obtain ⟨p, hf, hp, hn⟩ := find?_name_exists h
    exact ⟨p, by simp [findPartitionUpdate, find?_name_none hno, hf], hp, hn⟩
  · intro h
    have h1 : m.partitions.find? (fun q => q.partition_name == "init_boot") = none :=
      find?_name_none (fun p hp => (h p hp).1)
    have h2 : m.partitions.find? (fun q => q.partition_name == "boot") = none :=
      find?_name_none (fun p hp => (h p hp).2)
    simp [findPartitionUpdate, h1, h2]
  · intro name
    constructor
    · intro h
      obtain ⟨p, hf, hp, hn⟩ := find?_name_exists h
      exact ⟨p, by simp [findPartitionUpdate, hf], hp, hn⟩
    · intro h
      simp [findPartitionUpdate, find?_name_none h]

theorem findPartitionUpdate_selection_witness :
    (∃ p, findPartitionUpdate mC3 none = .ok p ∧ p ∈ mC3.partitions ∧
      p.partition_name = "init_boot") ∧
    findPartitionUpdate mC3 (some "odm") =
      .error (.notFound ("partition \x27odm\x27 not found")) := by
  have h := findPartitionUpdate_selection mC3
  refine ⟨h.1 ⟨⟨"init_boot", []⟩, by simp [mC3], rfl⟩, ?_⟩
  exact (h.2.2.2 "odm").2 (by decide)

/-! ## Container header validation (C5) -/

theorem readIn_succeeds (input : List Byte) (n : Nat) (s : InSt)
    (h : s.pos + n ≤ input.length) :
    readIn input n s =
      (some ((input.drop s.pos).take n), ⟨s.pos + n, s.trace ++ [s.pos + n]⟩) := by
  simp [readIn, readExact, h]

theorem readIn_s0 (input : List Byte) (h : 4 ≤ input.length) :
    readIn input 4 s0 = (some (input.take 4), ⟨4, [0, 4]⟩) := by
  simpa [s0] using readIn_succeeds input 4 s0 (by simp [s0]; omega)

theorem readIn_s4 (input : List Byte) (h : 12 ≤ input.length) :
    readIn input 8 ⟨4, [0, 4]⟩ = (some ((input.drop 4).take 8), ⟨12, [0, 4, 12]⟩) := by
  simpa using readIn_succeeds input 8 ⟨4, [0, 4]⟩ (by simp; omega)

theorem readIn_s12 (input : List Byte) (h : 20 ≤ input.length) :
    readIn input 8 ⟨12, [0, 4, 12]⟩ =
      (some ((input.drop 12).take 8), ⟨20, [0, 4, 12, 20]⟩) := by
  simpa using readIn_succeeds input 8 ⟨12, [0, 4, 12]⟩ (by simp; omega)

theorem readIn_s20 (input : List Byte) (h : 24 ≤ input.length) :
    readIn input 4 ⟨20, [0, 4, 12, 20]⟩ =
      (some ((input.drop 20).take 4), ⟨24, [0, 4, 12, 20, 24]⟩) := by
  simpa using readIn_succeeds input 4 ⟨20, [0, 4, 12, 20]⟩ (by simp; omega)

/-- On an input holding at least the 24 header bytes, `parseHeader` is the
four checks in source order, each immediately fatal. -/
theorem parseHeader_shape (input : List Byte) (h : 24 ≤ input.length) :
    parseHeader input s0 =
      if input.take 4 ≠ payloadMagic then
        (.error (.badPayload ("invalid magic")), ⟨4, [0, 4]⟩)
      else if beNat ((input.drop 4).take 8) ≠ 2 then
        (.error (.badPayload ("unsupported version: " ++
          toString (beNat ((input.drop 4).take 8)))), ⟨12, [0, 4, 12]⟩)
      else if beNat ((input.drop 12).take 8) = 0 then
        (.error (.badPayload ("manifest length is zero")), ⟨20, [0, 4, 12, 20]⟩)
      else if beNat ((input.drop 20).take 4) = 0 then
        (.error (.badPayload ("manifest signature length is zero")),
         ⟨24, [0, 4, 12, 20, 24]⟩)
      else
        (.ok ⟨beNat ((input.drop 12).take 8), beNat ((input.drop 20).take 4)⟩,
         ⟨24, [0, 4, 12, 20, 24]⟩) := by
  rw [show parseHeader input s0 = parseHeader input s0 from rfl]
  simp only [parseHeader, readIn_s0 input (by omega), readIn_s4 input (by omega),
    readIn_s12 input (by omega), readIn_s20 input (by omega)]

theorem take24_len {i1 i2 : List Byte} (h : i1.take 24 = i2.take 24) :
    min 24 i1.length = min 24 i2.length := by
  have := congrArg List.length h
  simpa [List.length_take] using this

/-- Claim C5: container header validation reads only the first 24 bytes (so
it happens before any manifest byte is read), and performs, in order, each
immediately fatal: magic must be "CrAU", the big-endian u64 version must be
2 (the error reports the value seen), the big-endian u64 manifest length must
be nonzero, and the big-endian u32 manifest signature length must be nonzero. -/
theorem parseHeader_validation :
    (∀ i1 i2 : List Byte, i1.take 24 = i2.take 24 →
       (parseHeader i1 s0).1 = (parseHeader i2 s0).1) ∧
    (∀ input : List Byte, 4 ≤ input.length → input.take 4 ≠ payloadMagic →
       (parseHeader input s0).1 = .error (.badPayload ("invalid magic"))) ∧
    (∀ input : List Byte, 12 ≤ input.length → input.take 4 = payloadMagic →
       beNat ((input.drop 4).take 8) ≠ 2 →
       (parseHeader input s0).1 = .error (.badPayload ("unsupported version: " ++
         toString (beNat ((input.drop 4).take 8))))) ∧
    (∀ input : List Byte, 20 ≤ input.length → input.take 4 = payloadMagic →
       beNat ((input.drop 4).take 8) = 2 → beNat ((input.drop 12).take 8) = 0 →
       (parseHeader input s0).1 = .error (.badPayload ("manifest length is zero"))) ∧
    (∀ input : List Byte, 24 ≤ input.length → input.take 4 = payloadMagic →
       beNat ((input.drop 4).take 8) = 2 → beNat ((input.drop 12).take 8) ≠ 0 →
       beNat ((input.drop 20).take 4) = 0 →
       (parseHeader input s0).1 =
         .error (.badPayload ("manifest signature length is zero"))) ∧
    (∀ input : List Byte, 24 ≤ input.length → input.take 4 = payloadMagic →
       beNat ((input.drop 4).take 8) = 2 → beNat ((input.drop 12).take 8) ≠ 0 →
       beNat ((input.drop 20).take 4) ≠ 0 →
       parseHeader input s0 =
         (.ok ⟨beNat ((input.drop 12).take 8), beNat ((input.drop 20).take 4)⟩,
          ⟨24, [0, 4, 12, 20, 24]⟩)) := by
  refine ⟨?_, ?_, ?_, ?_, ?_, ?_⟩
  · intro i1 i2 h
    by_cases hl : 24 ≤ i1.length
    · have hl2 : 24 ≤ i2.length := by have := take24_len h; omega
      have e4 : i1.take 4 = i2.take 4 := by
        have := congrArg (List.take 4) h
        simpa [List.take_take] using this
      have e48 : (i1.drop 4).take 8 = (i2.drop 4).take 8 := by
        have := congrArg (fun l => (List.drop 4 l).take 8) h
        simpa [List.drop_take, List.take_take] using this
      have e128 : (i1.drop 12).take 8 = (i2.drop 12).take 8 := by
        have := congrArg (fun l => (List.drop 12 l).take 8) h
        simpa [List.drop_take, List.take_take] using this
      have e204 : (i1.drop 20).take 4 = (i2.drop 20).take 4 := by
        have := congrArg (fun l => (List.drop 20 l).take 4) h
        simpa [List.drop_take, List.take_take] using this
      rw [parseHeader_shape i1 hl, parseHeader_shape i2 hl2, e4, e48, e128, e204]
    · have hle : i1.length ≤ 24 := by omega
      have hl2 : i2.length = i1.length := by have := take24_len h; omega
      have : i1 = i2 := by
        calc i1 = i1.take 24 := (List.take_of_length_le hle).symm
          _ = i2.take 24 := h
          _ = i2 := List.take_of_length_le (by omega)
      rw [this]
  · intro input h4 hm
    simp [parseHeader, readIn_s0 input h4, hm]
  · intro input h12 hm hv
    simp [parseHeader, readIn_s0 input (by omega), readIn_s4 input h12, hm, hv]
  · intro input h20 hm hv hz
    simp [parseHeader, readIn_s0 input (by omega), readIn_s4 input (by omega),
      readIn_s12 input h20, hm, hv, hz]
  · intro input h24 hm hv hnz hz
    simp [parseHeader, readIn_s0 input (by omega), readIn_s4 input (by omega),
      readIn_s12 input (by omega), readIn_s20 input h24, hm, hv, hnz, hz]
  · intro input h24 hm hv hnz hsnz
    simp [parseHeader, readIn_s0 input (by omega), readIn_s4 input (by omega),
      readIn_s12 input (by omega), readIn_s20 input h24, hm, hv, hnz, hsnz]

theorem parseHeader_validation_witness :
    (parseHeader [9, 9, 9, 9] s0).1 = .error (.badPayload ("invalid magic")) ∧
    parseHeader hdrC5 s0 = (.ok ⟨1, 1⟩, ⟨24, [0, 4, 12, 20, 24]⟩) := by
  refine ⟨parseHeader_validation.2.1 [9, 9, 9, 9] (by decide) (by decide), ?_⟩
  have h := parseHeader_validation.2.2.2.2.2 hdrC5 (by decide) (by decide)
    (by decide) (by decide) (by decide)
  exact h.trans rfl

/-! ## ZERO operations (C2) -/

/-- Claim C2 is the spec's intent, but the code diverges: the ZERO arm calls
`write_zeros(num_blocks as usize)` (line 162), writing `num_blocks` zero
bytes instead of `num_blocks * block_size`.  With block size 4096 and extents
(0,1) and (2,3) the engine succeeds, seeks each extent to
`start_block * block_size` (0 and 8192), zeroes every listed extent (not just
the first) and never writes the byte read from the input (7), but writes runs
of 1 and 3 zero bytes where the spec requires 4096 and 12288. -/
theorem zero_op_write_zeros_bug :
    (stepOp envNone 4096 [7] zopC2 stInit).2 = none ∧
    (stepOp envNone 4096 [7] zopC2 stInit).1.out.writes =
      [(0, List.replicate 1 0), (8192, List.replicate 3 0)] ∧
    (List.replicate 1 (0 : Byte)).length ≠ 1 * 4096 ∧
    (List.replicate 3 (0 : Byte)).length ≠ 3 * 4096 := by
  refine ⟨by decide, by decide, by decide, by decide⟩

/-! ## Negative skip / wrapping subtraction (C4) -/

/-- Counterexample to claim C4 as stated: on an overlapping payload the
second operation's `data_offset` (5) is below the cursor (10), yet the engine
does not fail with a structural (`bad_payload`) error — the u64 subtraction
wraps to `2^64 - 5` and the resulting oversized forward skip fails as a plain
input I/O error (`Err.isBadPayload` holds of no error the run produces). -/
theorem skip_underflow_counterexample :
    (runOps envNone 1 (List.replicate 10 3) (sortOps [opC4a, opC4b]) stInit).2 =
      some .ioError ∧
    Option.map Err.isBadPayload
      (runOps envNone 1 (List.replicate 10 3) (sortOps [opC4a, opC4b]) stInit).2 =
      some false ∧
    wrapSub 5 10 = U64 - 5 := by
  exact ⟨by decide, by decide, by decide⟩

/-- Claim C4 (amended): the engine computes the skip with wrapping u64
subtraction and has no negativity check.  When the cursor does not exceed
`data_offset` (guaranteed for sorted non-overlapping payloads) the computed
skip is exactly `data_offset - curr`; when `data_offset` is below the cursor
the skip wraps to `2^64 - (curr - data_offset)` and, on any input shorter
than `2^64 - curr` bytes, the operation fails with an input I/O error — not
with a structural payload error. -/
theorem skip_wrapping_behavior (env : Env) (bs : Nat) (input : List Byte)
    (op : InstallOperation) (st : LoopSt) (len off : Nat)
    (hlen : op.data_length = some len) (hoff : op.data_offset = some off)
    (hc : st.curr < U64) (h64 : off < U64) :
    (st.curr ≤ off → wrapSub off st.curr = off - st.curr) ∧
    (off < st.curr →
      wrapSub off st.curr = U64 - (st.curr - off) ∧
      (input.length + st.curr < U64 →
        stepOp env bs input op st = (st, some .ioError))) := by
  have hU : 0 < U64 := by decide
  constructor
  · intro hle
    unfold wrapSub
    rw [Nat.mod_eq_of_lt h64, Nat.mod_eq_of_lt hc,
      show off + U64 - st.curr = (off - st.curr) + U64 by omega,
      Nat.add_mod_right, Nat.mod_eq_of_lt (by omega)]
  · intro hlt
    have hw : wrapSub off st.curr = U64 - (st.curr - off) := by
      unfold wrapSub
      rw [Nat.mod_eq_of_lt h64, Nat.mod_eq_of_lt hc, Nat.mod_eq_of_lt (by omega)]
      omega
    refine ⟨hw, fun hshort => ?_⟩
    have hskip : skipIn input (wrapSub off st.curr) st.ins = (false, st.ins) := by
      unfold skipIn
      rw [if_neg]
      rw [hw]
      omega
    simp [stepOp, hlen, hoff, hskip]

theorem skip_wrapping_behavior_witness :
    wrapSub 5 10 = U64 - 5 ∧
    stepOp envNone 1 (List.replicate 10 3) opC4b
      ⟨⟨10, [0, 10]⟩, 10, ⟨0, []⟩⟩ = (⟨⟨10, [0, 10]⟩, 10, ⟨0, []⟩⟩, some .ioError) := by
  have h := skip_wrapping_behavior envNone 1 (List.replicate 10 3) opC4b
    ⟨⟨10, [0, 10]⟩, 10, ⟨0, []⟩⟩ 5 5 rfl rfl (by decide) (by decide)
  have h2 := h.2 (by decide)
  exact ⟨h2.1, h2.2 (by decide)⟩

/-! ## Required operation fields (C7) -/

/-- Counterexample to claim C7 as stated: a full extraction whose single
REPLACE operation's extent is missing `num_blocks` succeeds (no error) and
writes the source byte — `num_blocks` is not a required field for REPLACE. -/
theorem missing_num_blocks_counterexample :
    opC7.dst_extents = [⟨some 0, none⟩] ∧
    (doExtract envC7 inC7 none).err = none ∧
    (doExtract envC7 inC7 none).out.writes = [(0, [7])] := by
  refine ⟨rfl, by decide, by decide⟩

theorem zeroExtents_missing_field (bs : Nat) :
    ∀ (exts : List Extent) (out : OutFile),
      (∃ e ∈ exts, e.start_block = none ∨ e.num_blocks = none) →
      ∃ msg, (zeroExtents bs exts out).2 = some (.badPayload msg) := by
  intro exts
  induction exts with
  | nil => intro out h; simp at h
  | cons e rest ih =>
    intro out h
    cases hsb : e.start_block with
    | none => exact ⟨"start block not found", by simp [zeroExtents, hsb]⟩
    | some sb =>
      cases hnb : e.num_blocks with
      | none => exact ⟨"num blocks not found", by simp [zeroExtents, hsb, hnb]⟩
      | some nb =>
        obtain ⟨e2, he2, hmiss⟩ := h
        rcases List.mem_cons.1 he2 with rfl | he2
        · rcases hmiss with hm | hm
          · rw [hsb] at hm; exact absurd hm (by simp)
          · rw [hnb] at hm; exact absurd hm (by simp)
        · obtain ⟨msg, hmsg⟩ := ih ((out.seek (wrapMul sb bs)).write
            (List.replicate nb 0)) ⟨e2, he2, hmiss⟩
          exact ⟨msg, by simpa [zeroExtents, hsb, hnb] using hmsg⟩

/-- Claim C7 (amended): every handled operation requires `data_length`,
`data_offset`, and at least one destination extent whose `start_block` is
present; a ZERO operation additionally requires `start_block` and
`num_blocks` on every listed extent; each missing field is an immediately
fatal structural error rather than a skip, and (once those common fields are
present) an operation with any other type tag fails with "unsupported
operation type".  `num_blocks` is not required for REPLACE / REPLACE_BZ /
REPLACE_XZ (see the counterexample). -/
theorem op_required_fields (env : Env) (bs : Nat) (input : List Byte)
    (op : InstallOperation) (st : LoopSt) :
    (op.data_length = none →
      stepOp env bs input op st = (st, some (.badPayload ("data length not found")))) ∧
    (∀ len, op.data_length = some len → op.data_offset = none →
      stepOp env bs input op st = (st, some (.badPayload ("data offset not found")))) ∧
    (∀ len off ins1 ins2 data, op.data_length = some len → op.data_offset = some off →
      skipIn input (wrapSub off st.curr) st.ins = (true, ins1) →
      readIn input len ins1 = (some data, ins2) →
      ((op.dst_extents = [] →
         (stepOp env bs input op st).2 = some (.badPayload ("dst extents not found"))) ∧
       (∀ e0 rest, op.dst_extents = e0 :: rest → e0.start_block = none →
         (stepOp env bs input op st).2 = some (.badPayload ("start block not found"))) ∧
       (∀ e0 rest sb tag, op.dst_extents = e0 :: rest → e0.start_block = some sb →
         op.type_pb = .other tag →
         (stepOp env bs input op st).2 =
           some (.badPayload ("unsupported operation type"))) ∧
       (∀ e0 rest sb, op.dst_extents = e0 :: rest → e0.start_block = some sb →
         op.type_pb = .ZERO →
         (∃ e ∈ op.dst_extents, e.start_block = none ∨ e.num_blocks = none) →
         ∃ msg, (stepOp env bs input op st).2 = some (.badPayload msg)))) := by
  refine ⟨?_, ?_, ?_⟩
  · intro h; simp [stepOp, h]
  · intro len hl ho; simp [stepOp, hl, ho]
  · intro len off ins1 ins2 data hl ho hskip hread
    refine ⟨?_, ?_, ?_, ?_⟩
    · intro hd
      simp [stepOp, hl, ho, hskip, hread, hd]
    · intro e0 rest hd hsb
      simp [stepOp, hl, ho, hskip, hread, hd, hsb]
    · intro e0 rest sb tag hd hsb hty
      simp [stepOp, hl, ho, hskip, hread, hd, hsb, hty]
    · intro e0 rest sb hd hsb hty hmiss
      obtain ⟨msg, hmsg⟩ := zeroExtents_missing_field bs op.dst_extents st.out hmiss
      refine ⟨msg, ?_⟩
      cases hz : zeroExtents bs (e0 :: rest) st.out with
      | mk o oe =>
        have hmsg2 : oe = some (.badPayload msg) := by
          rw [hd, hz] at hmsg
          simpa using hmsg
        simp [stepOp, hl, ho, hskip, hread, hd, hsb, hty, hz, hmsg2]

theorem op_required_fields_witness :
    stepOp envNone 1 [] (⟨.REPLACE, none, none, []⟩ : InstallOperation) stInit =
      (stInit, some (.badPayload ("data length not found"))) :=
  (op_required_fields envNone 1 [] ⟨.REPLACE, none, none, []⟩ stInit).1 rfl

/-! ## REPLACE-family extent usage (C10) -/

/-- Claim C10: for REPLACE, REPLACE_BZ and REPLACE_XZ operations only the
first destination extent's `start_block` determines the output offset — the
`num_blocks` of every extent and all destination extents after the first are
ignored (so a missing `num_blocks` cannot cause an error for these
variants): replacing the first extent's `num_blocks` and the tail of the
extent list arbitrarily leaves the step's behaviour unchanged. -/
theorem replace_first_extent_only (env : Env) (bs : Nat) (input : List Byte)
    (op : InstallOperation) (st : LoopSt) (e0 : Extent) (rest : List Extent)
    (hd : op.dst_extents = e0 :: rest)
    (ht : op.type_pb = .REPLACE ∨ op.type_pb = .REPLACE_BZ ∨ op.type_pb = .REPLACE_XZ) :
    ∀ (nb : Option Nat) (rest2 : List Extent),
      stepOp env bs input
        { op with dst_extents := ⟨e0.start_block, nb⟩ :: rest2 } st =
      stepOp env bs input op st := by
  intro nb rest2
  cases hl : op.data_length with
  | none => simp [stepOp, hl]
  | some len =>
    cases ho : op.data_offset with
    | none => simp [stepOp, hl, ho]
    | some off =>
      cases hsk : skipIn input (wrapSub off st.curr) st.ins with
      | mk ok1 ins1 =>
        cases ok1 with
        | false => simp [stepOp, hl, ho, hsk]
        | true =>
          cases hrd : readIn input len ins1 with
          | mk ro ins2 =>
            cases ro with
            | none => simp [stepOp, hl, ho, hsk, hrd]
            | some data =>
              cases hsb : e0.start_block with
              | none =>
                rcases ht with h | h | h <;>
                  simp [stepOp, hl, ho, hsk, hrd, hd, hsb, h]
              | some sb =>
                rcases ht with h | h | h <;>
                  simp [stepOp, hl, ho, hsk, hrd, hd, hsb, h]

theorem replace_first_extent_only_witness :
    stepOp envNone 4096 [7]
      (⟨.REPLACE, some 1, some 0, [⟨some 0, some 55⟩, ⟨some 9, some 9⟩]⟩ :
        InstallOperation) stInit =
    stepOp envNone 4096 [7] opC7 stInit := by
  have h := replace_first_extent_only envNone 4096 [7] opC7 stInit
    ⟨some 0, none⟩ [] rfl (Or.inl rfl) (some 55) [⟨some 9, some 9⟩]
  exact h

/-! ## Minor-version gate (C6) -/

/-- Claim C6: a decoded manifest with nonzero minor version makes the whole
extraction fail with the dedicated delta-payload message — an error value
distinct from the manifest-decode failure — before the output file is
created and before any install operation is replayed (no writes). -/
theorem delta_minor_version_rejected (env : Env) (input : List Byte)
    (pname : Option String) (h : Header) (s1 s2 : InSt) (mbytes : List Byte)
    (m : DeltaArchiveManifest)
    (hh : parseHeader input s0 = (.ok h, s1))
    (hrd : readIn input h.manifest_len s1 = (some mbytes, s2))
    (hdec : env.decodeManifest mbytes = some m)
    (hminor : m.minor_version ≠ 0) :
    doExtract env input pname =
      ⟨some (.badPayload
          ("delta payloads are not supported, please use a full payload file")),
        false, ⟨0, []⟩, s2.trace⟩ ∧
    (Err.badPayload
        ("delta payloads are not supported, please use a full payload file")) ≠
      Err.decodeError := by
  refine ⟨?_, by simp⟩
  simp [doExtract, hh, hrd, hdec, hminor]

theorem delta_minor_version_rejected_witness :
    doExtract envC6 inC6 none =
      ⟨some (.badPayload
          ("delta payloads are not supported, please use a full payload file")),
        false, ⟨0, []⟩, [0, 4, 12, 20, 24, 25]⟩ := by
  have h := delta_minor_version_rejected envC6 inC6 none ⟨1, 1⟩
    ⟨24, [0, 4, 12, 20, 24]⟩ ⟨25, [0, 4, 12, 20, 24, 25]⟩ [9] ⟨1, 4096, []⟩
    rfl rfl rfl (by decide)
  exact h.1

/-! ## Output file creation point (C9) -/

/-- Claim C9: the output file is created exactly when header validation,
manifest read and decode, the minor-version check and partition resolution
have all succeeded; hence every malformed-container or partition-not-found
failure returns without the output file having been created. -/
theorem out_file_created_iff (env : Env) (input : List Byte) (pname : Option String) :
    (doExtract env input pname).outCreated = true ↔
      ∃ h s1, parseHeader input s0 = (.ok h, s1) ∧
        ∃ mbytes s2, readIn input h.manifest_len s1 = (some mbytes, s2) ∧
          ∃ m, env.decodeManifest mbytes = some m ∧ m.minor_version = 0 ∧
            ∃ p, findPartitionUpdate m pname = .ok p := by
  cases hh : parseHeader input s0 with
  | mk r s1 =>
    cases r with
    | error e => simp [doExtract, hh]
    | ok h =>
      cases hrd : readIn input h.manifest_len s1 with
      | mk ro s2 =>
        cases ro with
        | none => simp [doExtract, hh, hrd]
        | some mbytes =>
          cases hdec : env.decodeManifest mbytes with
          | none => simp [doExtract, hh, hrd, hdec]
          | some m =>
            by_cases hm : m.minor_version = 0
            · cases hfp : findPartitionUpdate m pname with
              | error e2 =>
                simp [doExtract, hh, hrd, hdec, hm, hfp]
              | ok p =>
                cases hsk : skipIn input h.manifest_sig_len s2 with
                | mk ok2 s3 =>
                  cases ok2 with
                  | false =>
                    refine iff_of_true ?_
                      ⟨h, s1, rfl, mbytes, s2, hrd, m, hdec, hm, p, hfp⟩
                    simp [doExtract, hh, hrd, hdec, hm, hfp, hsk]
                  | true =>
                    cases hro : runOps env m.block_size input
                        (sortOps p.operations) ⟨s3, 0, ⟨0, []⟩⟩ with
                    | mk st oe =>
                      refine iff_of_true ?_
                        ⟨h, s1, rfl, mbytes, s2, hrd, m, hdec, hm, p, hfp⟩
                      simp [doExtract, hh, hrd, hdec, hm, hfp, hsk, hro]
            · simp [doExtract, hh, hrd, hdec, hm]

/-! ## Forward-only input consumption (C8) -/

theorem readIn_mono (input : List Byte) (n : Nat) (s : InSt) (h : s.mono) :
    (readIn input n s).2.mono := by
  unfold readIn readExact
  by_cases hc : s.pos + n ≤ input.length
  · simp only [if_pos hc]
    refine ⟨List.Chain'.append h.1 (List.chain'_singleton _) ?_, ?_⟩
    · intro x hx y hy
      simp only [List.head?_cons, Option.mem_def, Option.some.injEq] at hy
      rw [h.2] at hx
      simp only [Option.mem_def, Option.some.injEq] at hx
      omega
    · simp [List.getLast?_concat]
  · simp only [if_neg hc]
    exact h

theorem skipIn_mono (input : List Byte) (n : Nat) (s : InSt) (h : s.mono) :
    (skipIn input n s).2.mono := by
  unfold skipIn
  by_cases hc : s.pos + n ≤ input.length
  · simp only [if_pos hc]
    refine ⟨List.Chain'.append h.1 (List.chain'_singleton _) ?_, ?_⟩
    · intro x hx y hy
      simp only [List.head?_cons, Option.mem_def, Option.some.injEq] at hy
      rw [h.2] at hx
      simp only [Option.mem_def, Option.some.injEq] at hx
      omega
    · simp [List.getLast?_concat]
  · simp only [if_neg hc]
    exact h

theorem stepOp_ins_mono (env : Env) (bs : Nat) (input : List Byte)
    (op : InstallOperation) (st : LoopSt) (h : st.ins.mono) :
    (stepOp env bs input op st).1.ins.mono := by
  cases hl : op.data_length with
  | none => simpa [stepOp, hl] using h
  | some len =>
  cases ho : op.data_offset with
  | none => simpa [stepOp, hl, ho] using h
  | some off =>
  cases hsk : skipIn input (wrapSub off st.curr) st.ins with
  | mk b ins1 =>
  have h1 : ins1.mono := by
    have := skipIn_mono input (wrapSub off st.curr) st.ins h
    rw [hsk] at this
    exact this
  cases b with
  | false => simpa [stepOp, hl, ho, hsk] using h1
  | true =>
  cases hrd : readIn input len ins1 with
  | mk ro ins2 =>
  have h2 : ins2.mono := by
    have := readIn_mono input len ins1 h1
    rw [hrd] at this
    exact this
  cases ro with
  | none => simpa [stepOp, hl, ho, hsk, hrd] using h2
  | some data =>
  cases hhd : op.dst_extents.head? with
  | none => simpa [stepOp, hl, ho, hsk, hrd, hhd] using h2
  | some e0 =>
  cases hsb : e0.start_block with
  | none => simpa [stepOp, hl, ho, hsk, hrd, hhd, hsb] using h2
  | some sb =>
  cases hty : op.type_pb with
  | REPLACE => simpa [stepOp, hl, ho, hsk, hrd, hhd, hsb, hty] using h2
  | ZERO =>
    cases hz : zeroExtents bs op.dst_extents st.out with
    | mk o oe => simpa [stepOp, hl, ho, hsk, hrd, hhd, hsb, hty, hz] using h2
  | REPLACE_BZ =>
    cases hdc : env.decompress data with
    | none => simpa [stepOp, hl, ho, hsk, hrd, hhd, hsb, hty, hdc] using h2
    | some dec => simpa [stepOp, hl, ho, hsk, hrd, hhd, hsb, hty, hdc] using h2
  | REPLACE_XZ =>
    cases hdc : env.decompress data with
    | none => simpa [stepOp, hl, ho, hsk, hrd, hhd, hsb, hty, hdc] using h2
    | some dec => simpa [stepOp, hl, ho, hsk, hrd, hhd, hsb, hty, hdc] using h2
  | other tag => simpa [stepOp, hl, ho, hsk, hrd, hhd, hsb, hty] using h2

theorem runOps_ins_mono (env : Env) (bs : Nat) (input : List Byte) :
    ∀ (ops : List InstallOperation) (st : LoopSt), st.ins.mono →
      (runOps env bs input ops st).1.ins.mono := by
  intro ops
  induction ops with
  | nil => intro st h; simpa [runOps] using h
  | cons op rest ih =>
    intro st h
    cases hst : stepOp env bs input op st with
    | mk st1 oe =>
      have h1 : st1.ins.mono := by
        have := stepOp_ins_mono env bs input op st h
        rw [hst] at this
        exact this
      cases oe with
      | none => simpa [runOps, hst] using ih st1 h1
      | some e => simpa [runOps, hst] using h1

theorem parseHeader_mono (input : List Byte) (s : InSt) (h : s.mono) :
    (parseHeader input s).2.mono := by
  cases h1 : readIn input 4 s with
  | mk r1 s1 =>
  have hm1 : s1.mono := by
    have := readIn_mono input 4 s h
    rw [h1] at this
    exact this
  cases r1 with
  | none => simpa [parseHeader, h1] using hm1
  | some magic =>
  by_cases hmg : magic = payloadMagic
  case neg => simpa [parseHeader, h1, hmg] using hm1
  case pos =>
  cases h2 : readIn input 8 s1 with
  | mk r2 s2 =>
  have hm2 : s2.mono := by
    have := readIn_mono input 8 s1 hm1
    rw [h2] at this
    exact this
  cases r2 with
  | none => simpa [parseHeader, h1, hmg, h2] using hm2
  | some vb =>
  by_cases hv : beNat vb = 2
  case neg => simpa [parseHeader, h1, hmg, h2, hv] using hm2
  case pos =>
  cases h3 : readIn input 8 s2 with
  | mk r3 s3 =>
  have hm3 : s3.mono := by
    have := readIn_mono input 8 s2 hm2
    rw [h3] at this
    exact this
  cases r3 with
  | none => simpa [parseHeader, h1, hmg, h2, hv, h3] using hm3
  | some mb =>
  by_cases hml : beNat mb = 0
  case pos => simpa [parseHeader, h1, hmg, h2, hv, h3, hml] using hm3
  case neg =>
  cases h4 : readIn input 4 s3 with
  | mk r4 s4 =>
  have hm4 : s4.mono := by
    have := readIn_mono input 4 s3 hm3
    rw [h4] at this
    exact this
  cases r4 with
  | none => simpa [parseHeader, h1, hmg, h2, hv, h3, hml, h4] using hm4
  | some sb =>
  by_cases hsl : beNat sb = 0
  case pos => simpa [parseHeader, h1, hmg, h2, hv, h3, hml, h4, hsl] using hm4
  case neg => simpa [parseHeader, h1, hmg, h2, hv, h3, hml, h4, hsl] using hm4

/-- Claim C8: on every execution path the input stream position never
decreases — the trace of positions reached by the successive input accesses
(header reads, manifest read, signature skip, per-operation skips and reads)
is monotonically non-decreasing, for every environment, input and partition
name.  Only the output file is ever repositioned backwards. -/
theorem input_forward_only (env : Env) (input : List Byte) (pname : Option String) :
    (doExtract env input pname).trace.Chain' (fun a b => a ≤ b) := by
  have hs0 : s0.mono := ⟨List.chain'_singleton 0, rfl⟩
  cases hh : parseHeader input s0 with
  | mk r s1 =>
  have hm1 : s1.mono := by
    have := parseHeader_mono input s0 hs0
    rw [hh] at this
    exact this
  cases r with
  | error e => simpa [doExtract, hh] using hm1.1
  | ok h =>
  cases hrd : readIn input h.manifest_len s1 with
  | mk ro s2 =>
  have hm2 : s2.mono := by
    have := readIn_mono input h.manifest_len s1 hm1
    rw [hrd] at this
    exact this
  cases ro with
  | none => simpa [doExtract, hh, hrd] using hm2.1
  | some mbytes =>
  cases hdec : env.decodeManifest mbytes with
  | none => simpa [doExtract, hh, hrd, hdec] using hm2.1
  | some m =>
  by_cases hmv : m.minor_version = 0
  case neg => simpa [doExtract, hh, hrd, hdec, hmv] using hm2.1
  case pos =>
  cases hfp : findPartitionUpdate m pname with
  | error e => simpa [doExtract, hh, hrd, hdec, hmv, hfp] using hm2.1
  | ok p =>
  cases hsk : skipIn input h.manifest_sig_len s2 with
  | mk ok2 s3 =>
  have hm3 : s3.mono := by
    have := skipIn_mono input h.manifest_sig_len s2 hm2
    rw [hsk] at this
    exact this
  cases ok2 with
  | false => simpa [doExtract, hh, hrd, hdec, hmv, hfp, hsk] using hm3.1
  | true =>
  cases hro : runOps env m.block_size input (sortOps p.operations)
      ⟨s3, 0, ⟨0, []⟩⟩ with
  | mk st oe =>
  have hm4 : st.ins.mono := by
    have := runOps_ins_mono env m.block_size input (sortOps p.operations)
      ⟨s3, 0, ⟨0, []⟩⟩ hm3
    rw [hro] at this
    exact this
  simpa [doExtract, hh, hrd, hdec, hmv, hfp, hsk, hro] using hm4.1

/-! ## Sorted replay of REPLACE-family operations (C1) -/

theorem wrapSub_of_le {a b : Nat} (hb : b ≤ a) (ha : a < U64) :
    wrapSub a b = a - b := by
  unfold wrapSub
  rw [Nat.mod_eq_of_lt ha, Nat.mod_eq_of_lt (show b < U64 by omega)]
  rw [show a + U64 - b = (a - b) + U64 by omega, Nat.add_mod_right,
    Nat.mod_eq_of_lt (by omega)]

/-- Under well-formedness and correct cursor positioning, one step of the
loop reads exactly the operation's source bytes and performs exactly one
write of its output bytes at `start_block * block_size`. -/
theorem stepOp_wf (env : Env) (bs : Nat) (input : List Byte) (dataStart : Nat)
    (op : InstallOperation) (st : LoopSt)
    (hwf : WFReplaceOp env input dataStart op)
    (hpos : st.ins.pos = dataStart + st.curr)
    (hcurr : st.curr ≤ opKey op)
    (hin : dataStart + opKey op + opLen op ≤ input.length)
    (hlen64 : input.length < U64)
    (hsb64 : opSB op * bs < U64) :
    stepOp env bs input op st =
      (⟨⟨dataStart + opKey op + opLen op,
          st.ins.trace ++ [dataStart + opKey op] ++ [dataStart + opKey op + opLen op]⟩,
        opKey op + opLen op,
        ⟨opSB op * bs + (opOut env input dataStart op).length,
         st.out.writes ++ [(opSB op * bs, opOut env input dataStart op)]⟩⟩, none) := by
  obtain ⟨hl, ho, hlpos, ⟨e0, rest, hd, hsb⟩, hty⟩ := hwf
  have hoff64 : opKey op < U64 := by omega
  have hws : wrapSub (opKey op) st.curr = opKey op - st.curr :=
    wrapSub_of_le hcurr hoff64
  have hskip : skipIn input (opKey op - st.curr) st.ins =
      (true, ⟨dataStart + opKey op, st.ins.trace ++ [dataStart + opKey op]⟩) := by
    unfold skipIn
    rw [hpos, show dataStart + st.curr + (opKey op - st.curr) = dataStart + opKey op
      by omega, if_pos (by omega)]
  have hread : readIn input (opLen op)
      ⟨dataStart + opKey op, st.ins.trace ++ [dataStart + opKey op]⟩ =
      (some (opSrc input dataStart op),
       ⟨dataStart + opKey op + opLen op,
        st.ins.trace ++ [dataStart + opKey op] ++ [dataStart + opKey op + opLen op]⟩) := by
    unfold readIn readExact opSrc
    simp only [if_pos (show dataStart + opKey op + opLen op ≤ input.length from hin)]
  have hadd : wrapAdd (opKey op) (opLen op) = opKey op + opLen op := by
    unfold wrapAdd
    exact Nat.mod_eq_of_lt (by omega)
  have hmul : wrapMul (opSB op) bs = opSB op * bs := by
    unfold wrapMul
    exact Nat.mod_eq_of_lt hsb64
  rcases hty with hty | ⟨hty, hdec⟩
  · simp [stepOp, hl, ho, hws, hskip, hread, hd, hsb, hty, hadd, hmul,
      OutFile.seek, OutFile.write, opOut, opSrc]
  · obtain ⟨dec, hdec⟩ := Option.isSome_iff_exists.1 hdec
    have hdec2 : env.decompress ((input.drop (dataStart + opKey op)).take (opLen op)) =
        some dec := hdec
    rcases hty with hty | hty <;>
      simp [stepOp, hl, ho, hws, hskip, hread, hd, hsb, hty, hadd, hmul,
        OutFile.seek, OutFile.write, opOut, opSrc, hdec2]

/-- The replay loop over a sorted well-formed REPLACE-family list succeeds
and appends exactly one write per operation, in order. -/
theorem runOps_wf (env : Env) (bs : Nat) (input : List Byte) (dataStart : Nat)
    (hlen64 : input.length < U64) :
    ∀ (l : List InstallOperation) (st : LoopSt),
      st.ins.pos = dataStart + st.curr →
      (∀ op ∈ l, WFReplaceOp env input dataStart op) →
      (∀ op ∈ l, st.curr ≤ opKey op) →
      (∀ op ∈ l, dataStart + opKey op + opLen op ≤ input.length) →
      (∀ op ∈ l, opSB op * bs < U64) →
      l.Pairwise (fun a b => opKey a + opLen a ≤ opKey b) →
      ∃ insf currf posf,
        runOps env bs input l st =
          (⟨insf, currf,
            ⟨posf, st.out.writes ++
              l.map (fun op => (opSB op * bs, opOut env input dataStart op))⟩⟩, none) := by
  intro l
  induction l with
  | nil =>
    intro st hpos _ _ _ _ _
    exact ⟨st.ins, st.curr, st.out.pos, by simp [runOps]⟩
  | cons op rest ih =>
    intro st hpos hwf hcurr hin hsb hpw
    have hstep := stepOp_wf env bs input dataStart op st (hwf op (by simp))
      hpos (hcurr op (by simp)) (hin op (by simp)) hlen64 (hsb op (by simp))
    have hnext := (List.pairwise_cons.1 hpw).1
    obtain ⟨insf, currf, posf, hrest⟩ := ih
      ⟨⟨dataStart + opKey op + opLen op,
        st.ins.trace ++ [dataStart + opKey op] ++ [dataStart + opKey op + opLen op]⟩,
       opKey op + opLen op,
       ⟨opSB op * bs + (opOut env input dataStart op).length,
        st.out.writes ++ [(opSB op * bs, opOut env input dataStart op)]⟩⟩
      (by simp [Nat.add_assoc])
      (fun q hq => hwf q (by simp [hq]))
      (fun q hq => by
        have h1 := hnext q hq
        have h2 := (hwf op (by simp)).2.2.1
        simpa using h1)
      (fun q hq => hin q (by simp [hq]))
      (fun q hq => hsb q (by simp [hq]))
      (List.pairwise_cons.1 hpw).2
    refine ⟨insf, currf, posf, ?_⟩
    simp only [runOps, hstep]
    rw [hrest]
    simp

/-- Folding the read over writes none of which covers `i` leaves the
accumulator unchanged. -/
theorem foldl_readByte_none (i : Nat) :
    ∀ (ws : List (Nat × List Byte)) (a : Byte),
      (∀ w ∈ ws, ¬(w.1 ≤ i ∧ i < w.1 + w.2.length)) →
      ws.foldl (fun acc w => (coverByte w i).getD acc) a = a := by
  intro ws
  induction ws with
  | nil => intro a _; rfl
  | cons w rest ih =>
    intro a h
    simp only [List.foldl_cons]
    rw [show coverByte w i = none from if_neg (h w (by simp)), Option.getD_none]
    exact ih a (fun w2 hw2 => h w2 (by simp [hw2]))

/-- If exactly the distinguished write covers `i` among it and all later
writes, reading `i` gives that write's byte. -/
theorem readByte_unique (ws1 ws2 : List (Nat × List Byte)) (w : Nat × List Byte)
    (p i : Nat)
    (hcov : w.1 ≤ i ∧ i < w.1 + w.2.length)
    (hafter : ∀ w2 ∈ ws2, ¬(w2.1 ≤ i ∧ i < w2.1 + w2.2.length)) :
    OutFile.readByte ⟨p, ws1 ++ w :: ws2⟩ i = w.2.getD (i - w.1) 0 := by
  unfold OutFile.readByte
  simp only [List.foldl_append, List.foldl_cons]
  rw [show coverByte w i = some (w.2.getD (i - w.1) 0) from if_pos hcov,
    Option.getD_some]
  exact foldl_readByte_none i ws2 _ hafter

/-- Claim C1: the engine replays the selected partition's operation list
after sorting it by ascending `data_offset` (first conjunct), and for every
well-formed full payload of REPLACE-family operations whose declared data
regions do not overlap and whose destination byte ranges are disjoint, the
replay succeeds and the reconstructed image's bytes over each operation's
destination range `[start_block * block_size, start_block * block_size +
output length)` are exactly that operation's raw (REPLACE) or decompressed
(REPLACE_BZ / REPLACE_XZ) source bytes — whatever the order of the
operations in the manifest, since `ops` is universally quantified and only
its sorted version is replayed. -/
theorem replay_replace_family (env : Env) (bs : Nat) (input : List Byte)
    (dataStart : Nat) (ops : List InstallOperation) (tr0 : List Nat) (out0 : OutFile)
    (hlen64 : input.length < U64)
    (hwf : ∀ op ∈ ops, WFReplaceOp env input dataStart op)
    (hin : ∀ op ∈ ops, dataStart + opKey op + opLen op ≤ input.length)
    (hout64 : ∀ op ∈ ops, opSB op * bs + (opOut env input dataStart op).length < U64)
    (hdata : ops.Pairwise (fun a b =>
      opKey a + opLen a ≤ opKey b ∨ opKey b + opLen b ≤ opKey a))
    (hdst : ops.Pairwise (fun a b =>
      opSB a * bs + (opOut env input dataStart a).length ≤ opSB b * bs ∨
      opSB b * bs + (opOut env input dataStart b).length ≤ opSB a * bs)) :
    (sortOps ops).Pairwise (fun a b => opKey a ≤ opKey b) ∧
    ∃ stf, runOps env bs input (sortOps ops) ⟨⟨dataStart, tr0⟩, 0, out0⟩ = (stf, none) ∧
      ∀ op ∈ ops, ∀ i < (opOut env input dataStart op).length,
        stf.out.readByte (opSB op * bs + i) =
          (opOut env input dataStart op).getD i 0 := by
  have hperm : List.Perm (sortOps ops) ops := List.perm_insertionSort opLE ops
  have hsorted : (sortOps ops).Pairwise opLE := List.sorted_insertionSort opLE ops
  have hmem : ∀ q : InstallOperation, q ∈ sortOps ops → q ∈ ops :=
    fun q hq => hperm.mem_iff.1 hq
  have hdata2 : (sortOps ops).Pairwise (fun a b =>
      opKey a + opLen a ≤ opKey b ∨ opKey b + opLen b ≤ opKey a) :=
    (hperm.pairwise_iff (fun h => h.symm)).2 hdata
  have hstrong : (sortOps ops).Pairwise (fun a b => opKey a + opLen a ≤ opKey b) := by
    refine (hsorted.and hdata2).imp_of_mem ?_
    intro a b ha hb hab
    have h1 : opKey a ≤ opKey b := hab.1
    have hlb : 0 < opLen b := (hwf b (hmem b hb)).2.2.1
    rcases hab.2 with h | h
    · exact h
    · omega
  obtain ⟨insf, currf, posf, hrun⟩ := runOps_wf env bs input dataStart hlen64
    (sortOps ops) ⟨⟨dataStart, tr0⟩, 0, out0⟩
    (by simp)
    (fun q hq => hwf q (hmem q hq))
    (fun q _ => Nat.zero_le _)
    (fun q hq => hin q (hmem q hq))
    (fun q hq => by have := hout64 q (hmem q hq); omega)
    hstrong
  refine ⟨hsorted, _, hrun, ?_⟩
  intro op hop i hi
  obtain ⟨l1, l2, hsplit⟩ := List.append_of_mem (hperm.mem_iff.2 hop)
  have hdst2 : (sortOps ops).Pairwise (fun a b =>
      opSB a * bs + (opOut env input dataStart a).length ≤ opSB b * bs ∨
      opSB b * bs + (opOut env input dataStart b).length ≤ opSB a * bs) :=
    (hperm.pairwise_iff (fun h => h.symm)).2 hdst
  have hsub : (op :: l2).Pairwise (fun a b =>
      opSB a * bs + (opOut env input dataStart a).length ≤ opSB b * bs ∨
      opSB b * bs + (opOut env input dataStart b).length ≤ opSB a * bs) := by
    rw [hsplit] at hdst2
    exact hdst2.sublist (List.sublist_append_right l1 (op :: l2))
  have hafter := (List.pairwise_cons.1 hsub).1
  have hmap : (sortOps ops).map
      (fun q => (opSB q * bs, opOut env input dataStart q)) =
      (l1.map (fun q => (opSB q * bs, opOut env input dataStart q))) ++
        ((opSB op * bs, opOut env input dataStart op) ::
          l2.map (fun q => (opSB q * bs, opOut env input dataStart q))) := by
    rw [hsplit]
    simp
  have hread := readByte_unique
    (out0.writes ++ l1.map (fun q => (opSB q * bs, opOut env input dataStart q)))
    (l2.map (fun q => (opSB q * bs, opOut env input dataStart q)))
    (opSB op * bs, opOut env input dataStart op)
    posf (opSB op * bs + i)
    (by constructor
        · omega
        · simpa using by omega)
    (by
      intro w2 hw2
      obtain ⟨b, hb, rfl⟩ := List.mem_map.1 hw2
      have hdisj := hafter b hb
      simp only [not_and, not_lt]
      intro hle
      rcases hdisj with h | h
      · omega
      · omega)
  simp only [hmap, ← List.append_assoc]
  rw [hread]
  simp

theorem replay_replace_family_witness :
    ∃ stf, runOps envW 2 [5, 6] (sortOps [opW1, opW2]) ⟨⟨0, [0]⟩, 0, ⟨0, []⟩⟩ =
        (stf, none) ∧
      stf.out.readByte 0 = 5 ∧ stf.out.readByte 2 = 6 ∧ stf.out.readByte 3 = 6 := by
  have hwf : ∀ op ∈ [opW1, opW2], WFReplaceOp envW [5, 6] 0 op := by
    intro op hop
    rcases List.mem_cons.1 hop with rfl | hop
    · exact ⟨rfl, rfl, by decide, ⟨⟨some 0, none⟩, [], rfl, rfl⟩, Or.inl rfl⟩
    rcases List.mem_cons.1 hop with rfl | hop
    · exact ⟨rfl, rfl, by decide, ⟨⟨some 1, none⟩, [], rfl, rfl⟩,
        Or.inr ⟨Or.inr rfl, rfl⟩⟩
    simp at hop
  have h := replay_replace_family envW 2 [5, 6] 0 [opW1, opW2] [0] ⟨0, []⟩
    (by decide) hwf (by decide) (by decide) (by decide) (by decide)
  obtain ⟨-, stf, hrun, hbytes⟩ := h
  refine ⟨stf, hrun, ?_, ?_, ?_⟩
  · exact hbytes opW1 (by simp) 0 (by decide)
  · exact hbytes opW2 (by simp) 0 (by decide)
  · exact hbytes opW2 (by simp) 1 (by decide)

end Payload

